import Mathlib

/-!
Shallow embedding of the MoTeC LD file writer from the Go repository
`motecldparser` (`file.go` together with the record layouts in the
`ldfile` package), and a verification of the layout, linking and
truncation properties of its serialization algorithm.

Conventions of the embedding:
* Go machine integers are modelled as `Nat`; wrap-around is made explicit
  through `u16`/`u32` exactly where the source performs a narrowing
  conversion (`uint16(...)`, `uint32(...)`) or fixed-width arithmetic.
  `uintptr` quantities (the offset arithmetic) are plain `Nat`.
* Go strings and byte arrays are `List Nat`, one entry per byte.
* `binary.Size` of each record is the sum of its field widths (the
  `encoding/binary` wire size has no alignment padding), written out field
  by field in the same order as the Go struct.
* `File.Write` issues `Seek`/`binary.Write` calls whose error results the
  Go source discards.  The pure part of the embedding records, for every
  channel, the metadata record built and the positions and sizes of the
  writes issued (`ChanResult`, `fileWrites`); a separate sink model
  (`fileOps`/`runOps`) mirrors the error-discarding control flow.
-/

namespace MotecLd

/-- Go narrowing conversion `uint16(x)` and `uint16` arithmetic wrap-around. -/
def u16 (x : Nat) : Nat := x % 65536

/-- Go narrowing conversion `uint32(x)` and `uint32` arithmetic wrap-around. -/
def u32 (x : Nat) : Nat := x % 4294967296

/-- Go `copy(dst, src)` on byte slices: copies `min |dst| |src|` bytes of
`src` over the front of `dst` and leaves the rest of `dst` unchanged.  The
result is the content of `dst` after the call.  In `File.Write` and
`Channel.Write` every destination is a freshly zeroed fixed-size array, so
`dst` is always `List.replicate capacity 0` at the call sites below. -/
def goCopy (dst src : List Nat) : List Nat :=
  src.take dst.length ++ dst.drop (min dst.length src.length)

/-- Wire size of `ldfile.LdFileHead` (`binary.Size`): field widths in struct
order: LDMarker 4, pad 4, ChannelsMetaPointer 4, ChannelsDataPointer 4,
pad 20, EventPointer 4, pad 24, Unknown1 2, Unknown2 2, Unknown3 2,
DeviceSerial 4, DeviceType 8, DeviceVersion 2, Unknown4 2, ChannelsCount 4,
pad 4, Date 16, pad 16, Time 16, pad 16, Driver 64, Vehicle 64, pad 64,
Venue 64, pad 64, pad 1024, EnableProLogging 4, pad 66, ShortComment 64,
pad 126. -/
def headerSize : Nat :=
  4 + 4 + 4 + 4 + 20 + 4 + 24 + 2 + 2 + 2 + 4 + 8 + 2 + 2 + 4 + 4 +
    16 + 16 + 16 + 16 + 64 + 64 + 64 + 64 + 64 + 1024 + 4 + 66 + 64 + 126

/-- Wire size of `ldfile.LdFileEvent`: Name 64, Session 64, Comment 1024,
VenuePointer 2. -/
def eventSize : Nat := 64 + 64 + 1024 + 2

/-- Wire size of `ldfile.LdFileVenue`: Name 64, pad 1034, VehiclePointer 2. -/
def venueSize : Nat := 64 + 1034 + 2

/-- Wire size of `ldfile.LdFileVehicle`: Id 64, pad 128, Weight 4, Type 32,
Comment 32. -/
def vehicleSize : Nat := 64 + 128 + 4 + 32 + 32

/-- Wire size of `ldfile.LdFileChannelMeta`: PreviousMetaPointer 4,
NextMetaPointer 4, DataPointer 4, DataLength 4, ChannelId 2, DataType 2,
DataTypeLength 2, Frequency 2, Shift 2, Mul 2, Scale 2, DecPlaces 2,
Name 32, ShortName 8, Unit 12, pad 40. -/
def channelMetaSize : Nat :=
  4 + 4 + 4 + 4 + 2 + 2 + 2 + 2 + 2 + 2 + 2 + 2 + 32 + 8 + 12 + 40

/-- Offset of the Event record (`eventPointer := headerSize`, file.go:143). -/
def eventPointer : Nat := headerSize

/-- Offset of the Venue record (file.go:144). -/
def venuePointer : Nat := eventPointer + eventSize

/-- Offset of the Vehicle record (file.go:145). -/
def vehiclePointer : Nat := venuePointer + venueSize

/-- Offset of the first Channel-Metadata record (file.go:146). -/
def channelsMetaPointer : Nat := vehiclePointer + vehicleSize

/-- Offset of the channel data region for a file with `k` channel entries
(`channelsDataPointer := channelsMetaPointer + channelMetaSize*k`,
file.go:147). -/
def channelsDataPointer (k : Nat) : Nat :=
  channelsMetaPointer + channelMetaSize * k

/-- The named (non reserved) fields of `ldfile.LdFileHead`. -/
structure LdFileHead where
  ldMarker : Nat
  channelsMetaPointer : Nat
  channelsDataPointer : Nat
  eventPointer : Nat
  unknown1 : Nat
  unknown2 : Nat
  unknown3 : Nat
  deviceSerial : Nat
  deviceType : List Nat
  deviceVersion : Nat
  unknown4 : Nat
  channelsCount : Nat
  date : List Nat
  time : List Nat
  driver : List Nat
  vehicle : List Nat
  venue : List Nat
  enableProLogging : Nat
  shortComment : List Nat
deriving DecidableEq

/-- The named fields of `ldfile.LdFileEvent`. -/
structure LdFileEvent where
  name : List Nat
  session : List Nat
  comment : List Nat
  venuePointer : Nat
deriving DecidableEq

/-- The named fields of `ldfile.LdFileVenue`. -/
structure LdFileVenue where
  name : List Nat
  vehiclePointer : Nat
deriving DecidableEq

/-- The named fields of `ldfile.LdFileVehicle` (`vtype` stands for the Go
field `Type`, a reserved word in Lean). -/
structure LdFileVehicle where
  id : List Nat
  weight : Nat
  vtype : List Nat
  comment : List Nat
deriving DecidableEq

/-- The fields of `ldfile.LdFileChannelMeta`. -/
structure LdFileChannelMeta where
  previousMetaPointer : Nat
  nextMetaPointer : Nat
  dataPointer : Nat
  dataLength : Nat
  channelId : Nat
  dataType : Nat
  dataTypeLength : Nat
  frequency : Nat
  shift : Int
  mul : Int
  scale : Int
  decPlaces : Int
  name : List Nat
  shortName : List Nat
  unit : List Nat
deriving DecidableEq

/-- The `ldfile.DataType` pair: a type tag and an element width in bytes. -/
structure DataType where
  dataType : Nat
  dataTypeLength : Nat
deriving DecidableEq

/-- `ldfile.DataTypeFloat16 = DataType{0x07, 2}`. -/
def DataTypeFloat16 : DataType := ⟨0x07, 2⟩

/-- `ldfile.DataTypeFloat32 = DataType{0x07, 4}`. -/
def DataTypeFloat32 : DataType := ⟨0x07, 4⟩

/-- `ldfile.DataTypeInt16 = DataType{0x03, 2}`. -/
def DataTypeInt16 : DataType := ⟨0x03, 2⟩

/-- `ldfile.DataTypeInt32 = DataType{0x05, 4}`. -/
def DataTypeInt32 : DataType := ⟨0x05, 4⟩

/-- The three element types admitted by the Go generic constraint
`Channel[T float32 | int16 | int32]`. -/
inductive ElemType where
  | float32 : ElemType
  | int16 : ElemType
  | int32 : ElemType
deriving DecidableEq

/-- The type switch in `Channel.Write` (file.go:272-282): selects the
`ldfile.DataType` constant for the channel's element type. -/
def elemDataType : ElemType → DataType
  | ElemType.float32 => DataTypeFloat32
  | ElemType.int16 => DataTypeInt16
  | ElemType.int32 => DataTypeInt32

/-- A `Channel[T]` value: sampling frequency, name strings and the sample
sequence.  Sample values never influence the layout, only their count and
element width do, so samples are modelled as `Int`. -/
structure Channel where
  frequency : Nat
  name : List Nat
  shortName : List Nat
  unit : List Nat
  data : List Int
deriving DecidableEq

/-- One element of `File.Channels`, which in Go is `[]interface{}`:
either a pointer to a `Channel[T]` of one of the three supported element
types, or any other value (`other`), which the type switch in `File.Write`
(file.go:217-227) matches with no case at all. -/
inductive ChannelEntry where
  | chan : ElemType → Channel → ChannelEntry
  | other : ChannelEntry
deriving DecidableEq

/-- The `File` aggregate.  `dateStr`/`timeStr` stand for the strings
`f.Time.Format("02/01/2006")` and `f.Time.Format("15:04:05")` computed in
`File.Write` (file.go:167-168); the claims under verification do not
depend on the formatting itself. -/
structure File where
  dateStr : List Nat
  timeStr : List Nat
  driver : List Nat
  vehicle : List Nat
  venue : List Nat
  shortComment : List Nat
  eventName : List Nat
  eventSession : List Nat
  eventComment : List Nat
  vehicleId : List Nat
  vehicleWeight : Nat
  vehicleType : List Nat
  vehicleComment : List Nat
  channels : List ChannelEntry
deriving DecidableEq

/-- `File.AddChannels` (file.go:241-243): appends the given values, of any
type whatsoever, to the channel collection, with no validation. -/
def addChannels (f : File) (cs : List ChannelEntry) : File :=
  { f with channels := f.channels ++ cs }

/-- The header record built by `File.Write` (file.go:150-175). -/
def mkHead (f : File) : LdFileHead :=
  { ldMarker := 0x40
    unknown1 := 1
    unknown2 := 0x4240
    unknown3 := 0xF
    unknown4 := 0xADB0
    deviceSerial := 0x1F44
    deviceType := [65, 68, 76, 0, 0, 0, 0, 0]
    deviceVersion := 420
    enableProLogging := 0xC81A4
    channelsCount := u32 f.channels.length
    eventPointer := u32 eventPointer
    channelsMetaPointer := u32 channelsMetaPointer
    channelsDataPointer := u32 (channelsDataPointer f.channels.length)
    date := goCopy (List.replicate 16 0) f.dateStr
    time := goCopy (List.replicate 16 0) f.timeStr
    driver := goCopy (List.replicate 64 0) f.driver
    vehicle := goCopy (List.replicate 64 0) f.vehicle
    venue := goCopy (List.replicate 64 0) f.venue
    shortComment := goCopy (List.replicate 64 0) f.shortComment }

/-- The event record built by `File.Write` (file.go:178-184). -/
def mkEvent (f : File) : LdFileEvent :=
  { name := goCopy (List.replicate 64 0) f.eventName
    session := goCopy (List.replicate 64 0) f.eventSession
    comment := goCopy (List.replicate 1024 0) f.eventComment
    venuePointer := u16 venuePointer }

/-- The venue record built by `File.Write` (file.go:187-191). -/
def mkVenue (f : File) : LdFileVenue :=
  { name := goCopy (List.replicate 64 0) f.venue
    vehiclePointer := u16 vehiclePointer }

/-- The vehicle record built by `File.Write` (file.go:194-200). -/
def mkVehicle (f : File) : LdFileVehicle :=
  { id := goCopy (List.replicate 64 0) f.vehicleId
    weight := f.vehicleWeight
    vtype := goCopy (List.replicate 32 0) f.vehicleType
    comment := goCopy (List.replicate 32 0) f.vehicleComment }

/-- What one call of `Channel.Write` (file.go:261-328) produces: the
metadata record it writes, the offset it writes that record at, the number
of bytes of the binary sample payload, and the returned next data
pointer. -/
structure ChannelWriteResult where
  meta : LdFileChannelMeta
  metaPos : Nat
  dataBytes : Nat
  nextDataPointer : Nat
deriving DecidableEq

/-- `Channel.Write` (file.go:261-328).  `n` is the `uint16` channel index
parameter, `cc` the `uint32` channel count, `mp` the metadata-region base
offset, `cur` the current data pointer (both `uintptr`).  The `n-1`, `n+1`
and `channelsCount-1` arithmetic is performed in `uint16`/`uint32` exactly
as in the source, and the record's pointer fields are `uint32`
narrowings. -/
def channelWrite (t : ElemType) (c : Channel) (n cc mp cur : Nat) :
    ChannelWriteResult :=
  let dataType := elemDataType t
  let previousMetaPointer : Nat :=
    if 0 < n then mp + channelMetaSize * (n - 1) else 0
  let nextMetaPointer : Nat :=
    if n < u16 ((cc + 4294967295) % 4294967296) then
      mp + channelMetaSize * u16 (n + 1)
    else 0
  let currentMetaPointer := mp + channelMetaSize * n
  let binaryDataLen := dataType.dataTypeLength * c.data.length
  { meta :=
      { previousMetaPointer := u32 previousMetaPointer
        nextMetaPointer := u32 nextMetaPointer
        dataPointer := u32 cur
        dataLength := u32 c.data.length
        channelId := u16 (0x2EE1 + n)
        dataType := dataType.dataType
        dataTypeLength := dataType.dataTypeLength
        frequency := c.frequency
        shift := 0
        mul := 1
        scale := 1
        decPlaces := 0
        name := goCopy (List.replicate 32 0) c.name
        shortName := goCopy (List.replicate 8 0) c.shortName
        unit := goCopy (List.replicate 12 0) c.unit }
    metaPos := currentMetaPointer
    dataBytes := binaryDataLen
    nextDataPointer := cur + binaryDataLen }

/-- Outcome of one iteration of the channel loop in `File.Write`
(file.go:216-228): either a metadata record written at `metaPos` together
with `dataBytes` bytes of sample payload written at `dataPos`, or nothing
at all when the entry matched no case of the type switch. -/
inductive ChanResult where
  | written : Nat → LdFileChannelMeta → Nat → Nat → ChanResult
  | skipped : ChanResult
deriving DecidableEq

/-- The channel loop of `File.Write` (file.go:215-228): iterates the
entries with running index `i` and running data pointer `cur`, calling
`Channel.Write` with `uint16(i)` on the matching entries and doing nothing
on the others; returns the per-entry outcomes and the final data
pointer. -/
def writeChannels :
    List ChannelEntry → Nat → Nat → Nat → Nat → List ChanResult × Nat
  | [], _, _, _, cur => ([], cur)
  | ChannelEntry.chan t c :: rest, i, cc, mp, cur =>
    let r := channelWrite t c (u16 i) cc mp cur
    let tail := writeChannels rest (i + 1) cc mp r.nextDataPointer
    (ChanResult.written r.metaPos r.meta cur r.dataBytes :: tail.1, tail.2)
  | ChannelEntry.other :: rest, i, cc, mp, cur =>
    let tail := writeChannels rest (i + 1) cc mp cur
    (ChanResult.skipped :: tail.1, tail.2)

/-- Per-entry outcomes of the channel loop for a whole file: index starts
at 0, the channel count passed along is `uint32(len(f.Channels))` and the
data pointer starts at `channelsDataPointer`. -/
def fileChanResults (f : File) : List ChanResult :=
  (writeChannels f.channels 0 (u32 f.channels.length) channelsMetaPointer
    (channelsDataPointer f.channels.length)).1

/-- Final value of the running data pointer after the channel loop. -/
def fileFinalDataPointer (f : File) : Nat :=
  (writeChannels f.channels 0 (u32 f.channels.length) channelsMetaPointer
    (channelsDataPointer f.channels.length)).2

/-- The metadata record of a channel loop outcome, when one was written. -/
def resultMeta : ChanResult → Option LdFileChannelMeta
  | ChanResult.written _ m _ _ => some m
  | ChanResult.skipped => none

/-- The data slice `(position, byte count)` of a channel loop outcome,
when one was written. -/
def resultDataExtent : ChanResult → Option (Nat × Nat)
  | ChanResult.written _ _ d b => some (d, b)
  | ChanResult.skipped => none

/-- The metadata record written for the `i`-th channel entry of a file,
if that entry produced one. -/
def metaAt (f : File) (i : Nat) : Option LdFileChannelMeta :=
  (fileChanResults f)[i]?.bind resultMeta

/-- A write of `size` bytes at absolute offset `offset` of the sink. -/
structure PlacedWrite where
  offset : Nat
  size : Nat
deriving DecidableEq

/-- The writes the channel loop performs: for every written channel, the
metadata record (one `channelMetaSize` write at its slot) followed by the
sample payload at the data pointer (file.go:319-323); nothing for skipped
entries. -/
def chanWriteOps : List ChanResult → List PlacedWrite
  | [] => []
  | ChanResult.written mpos _ dpos dlen :: rest =>
    ⟨mpos, channelMetaSize⟩ :: ⟨dpos, dlen⟩ :: chanWriteOps rest
  | ChanResult.skipped :: rest => chanWriteOps rest

/-- All writes `File.Write` performs, as `(offset, size)` pairs in issue
order: the header at offset 0, the Event/Venue/Vehicle records at their
computed offsets (file.go:203-212), then the channel loop's writes. -/
def fileWrites (f : File) : List PlacedWrite :=
  ⟨0, headerSize⟩ :: ⟨eventPointer, eventSize⟩ :: ⟨venuePointer, venueSize⟩ ::
    ⟨vehiclePointer, vehicleSize⟩ :: chanWriteOps (fileChanResults f)

/-- Size of the output file: the largest end offset among all writes,
starting from an empty file. -/
def outputSize (f : File) : Nat :=
  (fileWrites f).foldr (fun w m => max (w.offset + w.size) m) 0

/-- One I/O call issued to the sink: `fd.Seek(pos, 0)` or a
`binary.Write` of `size` bytes. -/
inductive SinkOp where
  | seek : Nat → SinkOp
  | write : Nat → SinkOp
deriving DecidableEq

/-- The seek/write calls of the channel loop, in issue order. -/
def chanOps : List ChanResult → List SinkOp
  | [] => []
  | ChanResult.written mpos _ dpos dlen :: rest =>
    SinkOp.seek mpos :: SinkOp.write channelMetaSize ::
      SinkOp.seek dpos :: SinkOp.write dlen :: chanOps rest
  | ChanResult.skipped :: rest => chanOps rest

/-- The full sequence of I/O calls `File.Write` issues (file.go:203-228):
the header write at the initial position, then a seek/write pair for each
of Event, Venue, Vehicle, then the channel loop's calls. -/
def fileOps (f : File) : List SinkOp :=
  SinkOp.write headerSize :: SinkOp.seek eventPointer ::
    SinkOp.write eventSize :: SinkOp.seek venuePointer ::
    SinkOp.write venueSize :: SinkOp.seek vehiclePointer ::
    SinkOp.write vehicleSize :: chanOps (fileChanResults f)

/-- State of a fallible sink: how many I/O calls were made and which of
them failed.  `failAt` is the sink's failure schedule, indexed by call
number. -/
structure SinkRun where
  callsMade : Nat
  failedCalls : List Nat
deriving DecidableEq

/-- Execution of the call sequence against a fallible sink.  Every
`fd.Seek` and `binary.Write` in `File.Write`/`Channel.Write` discards its
error result (file.go:203-228 and 319-323: none of the calls' return
values is inspected), so control flow proceeds to the next call whether or
not the sink reported a failure; the run records the failures the Go code
drops. -/
def runOps (failAt : Nat → Bool) : List SinkOp → SinkRun → SinkRun
  | [], s => s
  | _ :: rest, s =>
    runOps failAt rest
      { callsMade := s.callsMade + 1
        failedCalls :=
          if failAt s.callsMade then s.failedCalls ++ [s.callsMade]
          else s.failedCalls }

/-- The data slices `(position, byte count)` of the channel loop outcomes,
in loop order. -/
def dataExtents : List ChanResult → List (Nat × Nat)
  | [] => []
  | ChanResult.written _ _ d b :: rest => (d, b) :: dataExtents rest
  | ChanResult.skipped :: rest => dataExtents rest

/-- Total byte count of a list of data slices. -/
def sumBytes (l : List (Nat × Nat)) : Nat :=
  l.foldr (fun x a => x.2 + a) 0

/-- The slices tile the region from `c` to `e`: each slice starts exactly
where the previous one ended, the first at `c`, and the last ends at `e`. -/
def contiguousFrom : Nat → List (Nat × Nat) → Nat → Prop
  | c, [], e => e = c
  | c, (o, b) :: rest, e => o = c ∧ contiguousFrom (c + b) rest e

/-- A sample channel with no data. -/
def cEx : Channel :=
  { frequency := 100, name := [], shortName := [], unit := [], data := [] }

/-- A sample channel with three samples. -/
def cEx3 : Channel :=
  { frequency := 10, name := [83, 112, 100], shortName := [83],
    unit := [107], data := [1, 2, 3] }

/-- A file with every metadata field empty and no channels. -/
def fBase : File :=
  { dateStr := [], timeStr := [], driver := [], vehicle := [], venue := [],
    shortComment := [], eventName := [], eventSession := [],
    eventComment := [], vehicleId := [], vehicleWeight := 0,
    vehicleType := [], vehicleComment := [], channels := [] }

/-- A file with two valid channels (a float32 and an int16 one). -/
def fEx2 : File :=
  { fBase with
    channels := [ChannelEntry.chan ElemType.float32 cEx3,
      ChannelEntry.chan ElemType.int16 cEx3] }

/-- A file whose second channel entry is not a supported channel value. -/
def fEx9 : File :=
  { fBase with
    channels := [ChannelEntry.chan ElemType.float32 cEx3,
      ChannelEntry.other] }

/-- A file with 65537 valid channels: one more than `uint16` can index. -/
def fBig : File :=
  { fBase with
    channels := List.replicate 65537 (ChannelEntry.chan ElemType.float32 cEx) }

/-- A file with 65537 entries: entry 0 is an unsupported value, the other
65536 entries are valid channels, so the last channel sits at index 65536,
whose `uint16` image is 0 — the index of the skipped entry's slot. -/
def fC9 : File :=
  { fBase with
    channels := ChannelEntry.other ::
      List.replicate 65536 (ChannelEntry.chan ElemType.float32 cEx) }

theorem writeChannels_length (entries : List ChannelEntry) :
    ∀ i cc mp cur, ((writeChannels entries i cc mp cur).1).length =
      entries.length := by
  induction entries with
  | nil => intro i cc mp cur; rfl
  | cons e rest ih =>
    intro i cc mp cur
    cases e with
    | chan t c => simp [writeChannels, ih]
    | other => simp [writeChannels, ih]

theorem writeChannels_get_chan (entries : List ChannelEntry) :
    ∀ (i cc mp cur j : Nat) (t : ElemType) (c : Channel),
      entries[j]? = some (ChannelEntry.chan t c) →
      ∃ d, ((writeChannels entries i cc mp cur).1)[j]? =
        some (ChanResult.written
          (channelWrite t c (u16 (i + j)) cc mp d).metaPos
          (channelWrite t c (u16 (i + j)) cc mp d).meta d
          (channelWrite t c (u16 (i + j)) cc mp d).dataBytes) := by
  induction entries with
  | nil => intro i cc mp cur j t c h; simp at h
  | cons e rest ih =>
    intro i cc mp cur j t c h
    cases j with
    | zero =>
      simp at h
      subst h
      exact ⟨cur, by simp [writeChannels]⟩
    | succ j =>
      simp at h
      have hij : i + 1 + j = i + (j + 1) := by omega
      cases e with
      | chan tp cp =>
        obtain ⟨d, hd⟩ := ih (i + 1) cc mp
          (channelWrite tp cp (u16 i) cc mp cur).nextDataPointer j t c h
        refine ⟨d, ?_⟩
        rw [hij] at hd
        simpa [writeChannels] using hd
      | other =>
        obtain ⟨d, hd⟩ := ih (i + 1) cc mp cur j t c h
        refine ⟨d, ?_⟩
        rw [hij] at hd
        simpa [writeChannels] using hd

theorem writeChannels_get_other (entries : List ChannelEntry) :
    ∀ (i cc mp cur j : Nat), entries[j]? = some ChannelEntry.other →
      ((writeChannels entries i cc mp cur).1)[j]? =
        some ChanResult.skipped := by
  induction entries with
  | nil => intro i cc mp cur j h; simp at h
  | cons e rest ih =>
    intro i cc mp cur j h
    cases j with
    | zero =>
      simp at h
      subst h
      simp [writeChannels]
    | succ j =>
      simp at h
      cases e with
      | chan tp cp =>
        simpa [writeChannels] using
          ih (i + 1) cc mp
            (channelWrite tp cp (u16 i) cc mp cur).nextDataPointer j h
      | other =>
        simpa [writeChannels] using ih (i + 1) cc mp cur j h

theorem writeChannels_contiguous (entries : List ChannelEntry) :
    ∀ i cc mp cur,
      contiguousFrom cur (dataExtents (writeChannels entries i cc mp cur).1)
        (writeChannels entries i cc mp cur).2 := by
  induction entries with
  | nil => intro i cc mp cur; simp [writeChannels, dataExtents, contiguousFrom]
  | cons e rest ih =>
    intro i cc mp cur
    cases e with
    | chan t c =>
      refine ⟨rfl, ?_⟩
      simpa [channelWrite] using
        ih (i + 1) cc mp (channelWrite t c (u16 i) cc mp cur).nextDataPointer
    | other =>
      simpa [writeChannels, dataExtents] using ih (i + 1) cc mp cur

theorem contiguousFrom_sum :
    ∀ (l : List (Nat × Nat)) (c e : Nat),
      contiguousFrom c l e → e = c + sumBytes l := by
  intro l
  induction l with
  | nil => intro c e h; simpa [sumBytes, contiguousFrom] using h
  | cons x rest ih =>
    obtain ⟨o, b⟩ := x
    intro c e h
    obtain ⟨ho, hrest⟩ := h
    have := ih (c + b) e hrest
    simp [sumBytes] at this ⊢
    omega

theorem contiguousFrom_bounds :
    ∀ (l : List (Nat × Nat)) (c e : Nat),
      contiguousFrom c l e →
        (∀ x ∈ l, c ≤ x.1 ∧ x.1 + x.2 ≤ e) ∧
          l.Pairwise (fun a b => a.1 + a.2 ≤ b.1) := by
  intro l
  induction l with
  | nil => intro c e h; simp
  | cons x rest ih =>
    obtain ⟨o, b⟩ := x
    intro c e h
    obtain ⟨ho, hrest⟩ := h
    obtain ⟨hmem, hpair⟩ := ih (c + b) e hrest
    have hsum := contiguousFrom_sum rest (c + b) e hrest
    constructor
    · intro x hx
      rcases List.mem_cons.mp hx with hx | hx
      · subst hx
        constructor
        · omega
        · simp only []
          omega
      · have := hmem x hx
        constructor
        · omega
        · exact this.2
    · refine List.pairwise_cons.mpr ⟨?_, hpair⟩
      intro y hy
      have := hmem y hy
      simp only []
      omega

/-- **C6** — the Data-Type Registry maps 32-bit float to `(7, 4)`, 16-bit
signed int to `(3, 2)` and 32-bit signed int to `(5, 4)`; the float16 tag
`(7, 2)` is defined but produced by no element type, so every metadata
record written by `Channel.Write` carries exactly the registry pair of its
channel's element type, one of the three pairs above. -/
theorem c6_registry :
    DataTypeFloat32 = ⟨7, 4⟩ ∧ DataTypeInt16 = ⟨3, 2⟩ ∧
      DataTypeInt32 = ⟨5, 4⟩ ∧ DataTypeFloat16 = ⟨7, 2⟩ ∧
      (∀ t, elemDataType t ≠ DataTypeFloat16) ∧
      (∀ t c n cc mp cur,
        (channelWrite t c n cc mp cur).meta.dataType =
            (elemDataType t).dataType ∧
          (channelWrite t c n cc mp cur).meta.dataTypeLength =
            (elemDataType t).dataTypeLength ∧
          (elemDataType t = DataTypeFloat32 ∨ elemDataType t = DataTypeInt16 ∨
            elemDataType t = DataTypeInt32)) := by
  refine ⟨rfl, rfl, rfl, rfl, ?_, ?_⟩
  · intro t; cases t <;> decide
  · intro t c n cc mp cur
    refine ⟨rfl, rfl, ?_⟩
    cases t
    · exact Or.inl rfl
    · exact Or.inr (Or.inl rfl)
    · exact Or.inr (Or.inr rfl)

/-- **C8** — the four signed 16-bit scaling parameters of every written
Channel-Metadata record are the fixed defaults: shift 0, multiplier 1,
scale 1, decimal places 0, whatever the channel, index, count or offsets
are; no input can change them. -/
theorem c8_scaling_defaults (t : ElemType) (c : Channel) (n cc mp cur : Nat) :
    (channelWrite t c n cc mp cur).meta.shift = 0 ∧
      (channelWrite t c n cc mp cur).meta.mul = 1 ∧
      (channelWrite t c n cc mp cur).meta.scale = 1 ∧
      (channelWrite t c n cc mp cur).meta.decPlaces = 0 :=
  ⟨rfl, rfl, rfl, rfl⟩

/-- **C10** — the 64-byte Venue field of the Header and the 64-byte Name
field of the Venue record are both copied from the same `File.Venue`
string, so the two on-disk fields hold identical bytes for every file. -/
theorem c10_venue_copies (f : File) : (mkHead f).venue = (mkVenue f).name :=
  rfl

/-- **C5** — for every capacity `C` and string `s`, the stored field is
`C` bytes long; when `|s| ≤ C` it is `s` left-aligned and zero-padded to
capacity; when `|s| ≥ C` it is exactly the first `C` bytes of `s`, with no
padding beyond the end of the string.  The header's Driver field (like
every text field of the embedding) is produced by exactly this `goCopy`
into a zeroed capacity-sized array. -/
theorem c5_truncation (C : Nat) (s : List Nat) :
    (goCopy (List.replicate C 0) s).length = C ∧
      (s.length ≤ C →
        goCopy (List.replicate C 0) s = s ++ List.replicate (C - s.length) 0) ∧
      (C ≤ s.length → goCopy (List.replicate C 0) s = s.take C) ∧
      (∀ f, (mkHead f).driver = goCopy (List.replicate 64 0) f.driver) := by
  refine ⟨?_, ?_, ?_, fun f => rfl⟩
  · simp [goCopy]
  · intro h
    have h1 : s.take C = s := List.take_of_length_le h
    have h2 : min C s.length = s.length := by omega
    simp [goCopy, h1, h2, List.drop_replicate]
  · intro h
    have h2 : min C s.length = C := by omega
    simp [goCopy, h2, List.drop_replicate]

/-- Witness for C5 at capacity 4 and a 6-byte string: the stored field is
exactly the first 4 bytes. -/
theorem c5_truncation_witness :
    goCopy (List.replicate 4 0) [1, 2, 3, 4, 5, 6] = [1, 2, 3, 4] := by
  have h := (c5_truncation 4 [1, 2, 3, 4, 5, 6]).2.2.1 (by norm_num)
  simpa using h

theorem runOps_calls (failAt : Nat → Bool) :
    ∀ (ops : List SinkOp) (s : SinkRun),
      (runOps failAt ops s).callsMade = s.callsMade + ops.length := by
  intro ops
  induction ops with
  | nil => intro s; simp [runOps]
  | cons op rest ih =>
    intro s
    rw [runOps, ih]
    simp
    omega

/-- **C4** — the offsets are cumulative sums in file order, the metadata
region spans exactly `channelMetaSize * k` bytes, and the computed offsets
are the ones embedded in the Header's event/channel-meta/channel-data
pointer fields and the Event's venue pointer field (the data pointer under
the assumption that it fits its 32-bit field). -/
theorem c4_offsets (f : File)
    (hfit : channelsMetaPointer + channelMetaSize * f.channels.length <
      4294967296) :
    eventPointer = headerSize ∧
      venuePointer = eventPointer + eventSize ∧
      vehiclePointer = venuePointer + venueSize ∧
      channelsMetaPointer = vehiclePointer + vehicleSize ∧
      channelsDataPointer f.channels.length - channelsMetaPointer =
        channelMetaSize * f.channels.length ∧
      (mkHead f).eventPointer = eventPointer ∧
      (mkHead f).channelsMetaPointer = channelsMetaPointer ∧
      (mkHead f).channelsDataPointer = channelsDataPointer f.channels.length ∧
      (mkEvent f).venuePointer = venuePointer := by
  refine ⟨rfl, rfl, rfl, rfl, by simp [channelsDataPointer], ?_, ?_, ?_, ?_⟩
  · show u32 eventPointer = eventPointer
    decide
  · show u32 channelsMetaPointer = channelsMetaPointer
    decide
  · show channelsDataPointer f.channels.length % 4294967296 =
      channelsDataPointer f.channels.length
    exact Nat.mod_eq_of_lt hfit
  · show u16 venuePointer = venuePointer
    decide

/-- Witness for C4 on the empty file: the data region starts where the
metadata region starts and the header embeds that offset. -/
theorem c4_offsets_witness :
    channelsDataPointer fBase.channels.length - channelsMetaPointer =
        channelMetaSize * fBase.channels.length ∧
      (mkHead fBase).channelsDataPointer =
        channelsDataPointer fBase.channels.length :=
  ⟨(c4_offsets fBase (by decide)).2.2.2.2.1,
    (c4_offsets fBase (by decide)).2.2.2.2.2.2.2.1⟩

/-- **C7** — with zero channels the output is exactly the four records,
contiguous from offset 0, of total size
`headerSize + eventSize + venueSize + vehicleSize`; the channel count
field is 0, the data offset equals the metadata offset and the channel
loop body never runs. -/
theorem c7_zero_channels (f : File) (h : f.channels = []) :
    fileWrites f = [⟨0, headerSize⟩, ⟨eventPointer, eventSize⟩,
        ⟨venuePointer, venueSize⟩, ⟨vehiclePointer, vehicleSize⟩] ∧
      outputSize f = headerSize + eventSize + venueSize + vehicleSize ∧
      (mkHead f).channelsCount = 0 ∧
      channelsDataPointer f.channels.length = channelsMetaPointer ∧
      fileChanResults f = [] := by
  have h1 : fileChanResults f = [] := by
    simp [fileChanResults, h, writeChannels]
  have hw : fileWrites f = [⟨0, headerSize⟩, ⟨eventPointer, eventSize⟩,
      ⟨venuePointer, venueSize⟩, ⟨vehiclePointer, vehicleSize⟩] := by
    simp [fileWrites, h1, chanWriteOps]
  refine ⟨hw, ?_, ?_, ?_, h1⟩
  · rw [outputSize, hw]
    decide
  · simp [mkHead, h, u32]
  · simp [h, channelsDataPointer]

/-- Witness for C7 on a concrete channel-free file. -/
theorem c7_zero_channels_witness :
    outputSize fBase = headerSize + eventSize + venueSize + vehicleSize ∧
      (mkHead fBase).channelsCount = 0 :=
  ⟨(c7_zero_channels fBase rfl).2.1, (c7_zero_channels fBase rfl).2.2.1⟩

/-- **C1** (code defect) — `File.Write` does not propagate sink failures:
the error results of every `binary.Write` and `fd.Seek` call are discarded
(file.go:203-228, 319-323), so a failing write neither reaches the caller
nor aborts the remaining write sequence.  Evaluated on a channel-free file
against a sink whose very first call (the header write) fails: all 7 I/O
calls are still attempted and the failure is only in the dropped errors;
universally, the attempted call count is the full sequence length whatever
the failure schedule. -/
theorem c1_io_errors_discarded :
    (runOps (fun k => k == 0) (fileOps fBase) ⟨0, []⟩).callsMade = 7 ∧
      (runOps (fun k => k == 0) (fileOps fBase) ⟨0, []⟩).failedCalls =
        [0] ∧
      (∀ (f : File) (failAt : Nat → Bool) (s : SinkRun),
        (runOps failAt (fileOps f) s).callsMade =
          s.callsMade + (fileOps f).length) :=
  ⟨by decide, by decide, fun f failAt s => runOps_calls failAt (fileOps f) s⟩

theorem channelWrite_prev_next (t : ElemType) (c : Channel) (i k d : Nat)
    (hk : k ≤ 65536) (hi : i < k) :
    ((channelWrite t c (u16 i) (u32 k) channelsMetaPointer
          d).meta.previousMetaPointer =
        if i = 0 then 0 else channelsMetaPointer + channelMetaSize * (i - 1)) ∧
      ((channelWrite t c (u16 i) (u32 k) channelsMetaPointer
          d).meta.nextMetaPointer =
        if i = k - 1 then 0
        else channelsMetaPointer + channelMetaSize * (i + 1)) := by
  have hmp : channelsMetaPointer = 4276 := by decide
  have hms : channelMetaSize = 124 := by decide
  have hi16 : u16 i = i := Nat.mod_eq_of_lt (by omega)
  constructor
  · show u32 (if 0 < u16 i then
        channelsMetaPointer + channelMetaSize * (u16 i - 1) else 0) = _
    rw [hi16]
    by_cases h0 : i = 0
    · simp [h0, u32]
    · rw [if_pos (Nat.pos_of_ne_zero h0), if_neg h0, u32, hms, hmp,
        Nat.mod_eq_of_lt (by omega)]
  · show u32 (if u16 i < u16 ((u32 k + 4294967295) % 4294967296) then
        channelsMetaPointer + channelMetaSize * u16 (u16 i + 1) else 0) = _
    have hk32 : u32 k = k := Nat.mod_eq_of_lt (by omega)
    have hdec : (u32 k + 4294967295) % 4294967296 = k - 1 := by
      rw [hk32]; omega
    have hk116 : u16 (k - 1) = k - 1 := Nat.mod_eq_of_lt (by omega)
    rw [hi16, hdec, hk116]
    by_cases hlast : i = k - 1
    · rw [if_neg (by omega), if_pos hlast]
      simp [u32]
    · have hlt : i < k - 1 := by omega
      have h116 : u16 (i + 1) = i + 1 := Nat.mod_eq_of_lt (by omega)
      rw [if_pos hlt, if_neg hlast, h116, u32, hms, hmp,
        Nat.mod_eq_of_lt (by omega)]

/-- **C2** (amended) — for every file whose channel collection holds only
supported channels and counts at most 65536 of them, and every index
`i < k`: the written record's previous pointer is 0 exactly when `i = 0`,
its next pointer is 0 exactly when `i = k - 1`, and otherwise the two
links are the absolute offsets `channelsMetaPointer + channelMetaSize *
(i-1)` and `channelsMetaPointer + channelMetaSize * (i+1)` of the adjacent
metadata records.  Above 65536 channels the `uint16` index arithmetic of
`Channel.Write` breaks the chain (see the counterexample). -/
theorem c2_links_amended (f : File) (i : Nat)
    (hc : ∀ e ∈ f.channels, e ≠ ChannelEntry.other)
    (hk : f.channels.length ≤ 65536) (hi : i < f.channels.length) :
    (metaAt f i).map LdFileChannelMeta.previousMetaPointer =
        some (if i = 0 then 0
          else channelsMetaPointer + channelMetaSize * (i - 1)) ∧
      (metaAt f i).map LdFileChannelMeta.nextMetaPointer =
        some (if i = f.channels.length - 1 then 0
          else channelsMetaPointer + channelMetaSize * (i + 1)) ∧
      ((metaAt f i).map LdFileChannelMeta.previousMetaPointer = some 0 ↔
        i = 0) ∧
      ((metaAt f i).map LdFileChannelMeta.nextMetaPointer = some 0 ↔
        i = f.channels.length - 1) := by
  have hmp : channelsMetaPointer = 4276 := by decide
  have hms : channelMetaSize = 124 := by decide
  cases he : f.channels[i]? with
  | none =>
    rw [List.getElem?_eq_none_iff] at he
    omega
  | some e =>
    cases e with
    | other =>
      obtain ⟨hlt, hget⟩ := List.getElem?_eq_some.mp he
      exact absurd rfl (hc _ (hget ▸ List.getElem_mem hlt))
    | chan t c =>
      obtain ⟨d, hd⟩ := writeChannels_get_chan f.channels 0
        (u32 f.channels.length) channelsMetaPointer
        (channelsDataPointer f.channels.length) i t c he
      have hm : metaAt f i = some (channelWrite t c (u16 i)
          (u32 f.channels.length) channelsMetaPointer d).meta := by
        simp [metaAt, fileChanResults, hd, resultMeta]
      obtain ⟨hp, hn⟩ :=
        channelWrite_prev_next t c i f.channels.length d hk hi
      refine ⟨by simp [hm, hp], by simp [hm, hn], ?_, ?_⟩
      · rw [hm]
        simp only [Option.map_some', Option.some.injEq]
        rw [hp]
        by_cases h0 : i = 0
        · simp [h0]
        · rw [if_neg h0]
          constructor
          · intro habs; omega
          · intro habs; exact absurd habs h0
      · rw [hm]
        simp only [Option.map_some', Option.some.injEq]
        rw [hn]
        by_cases hlast : i = f.channels.length - 1
        · simp [hlast]
        · rw [if_neg hlast]
          constructor
          · intro habs; omega
          · intro habs; exact absurd habs hlast

/-- Witness for the amended C2 on a two-channel file at index 0: previous
pointer is the head sentinel 0, next pointer is the absolute offset of
metadata record 1. -/
theorem c2_links_amended_witness :
    (metaAt fEx2 0).map LdFileChannelMeta.previousMetaPointer = some 0 ∧
      (metaAt fEx2 0).map LdFileChannelMeta.nextMetaPointer =
        some (channelsMetaPointer + channelMetaSize * 1) := by
  have h := c2_links_amended fEx2 0 (by decide) (by decide) (by decide)
  have hL : fEx2.channels.length = 2 := by decide
  refine ⟨by simpa using h.1, ?_⟩
  have h2 := h.2.1
  rw [hL] at h2
  simpa using h2

theorem writeChannels_head_chan (t : ElemType) (c : Channel)
    (rest : List ChannelEntry) (i cc mp cur : Nat) :
    ((writeChannels (ChannelEntry.chan t c :: rest) i cc mp cur).1)[0]? =
      some (ChanResult.written (channelWrite t c (u16 i) cc mp cur).metaPos
        (channelWrite t c (u16 i) cc mp cur).meta cur
        (channelWrite t c (u16 i) cc mp cur).dataBytes) := by
  simp [writeChannels]

/-- Counterexample to C2 as stated: a file with 65537 channels — one more
than `uint16` can index.  `Channel.Write` guards the next link with
`uint16(i) < uint16(channelsCount-1)` and `uint16(65536) = 0`, so the
first metadata record's next pointer is the sentinel 0 even though index 0
is not the last index `k - 1 = 65536`, where the claim requires the offset
of record 1 instead. -/
theorem c2_counterexample :
    fBig.channels.length = 65537 ∧
      (metaAt fBig 0).map LdFileChannelMeta.nextMetaPointer = some 0 ∧
      (0 : Nat) ≠ 65537 - 1 := by
  have hch : fBig.channels = ChannelEntry.chan ElemType.float32 cEx ::
      List.replicate 65536 (ChannelEntry.chan ElemType.float32 cEx) := by
    show List.replicate 65537 (ChannelEntry.chan ElemType.float32 cEx) = _
    rw [show (65537 : Nat) = 65536 + 1 by norm_num, List.replicate_succ]
  have hlen : fBig.channels.length = 65537 := by
    show (List.replicate 65537 (ChannelEntry.chan ElemType.float32 cEx)).length
      = 65537
    rw [List.length_replicate]
  refine ⟨hlen, ?_, by norm_num⟩
  have hm : metaAt fBig 0 = some (channelWrite ElemType.float32 cEx (u16 0)
      (u32 65537) channelsMetaPointer (channelsDataPointer 65537)).meta := by
    rw [metaAt, fileChanResults, hlen, hch, writeChannels_head_chan]
    rfl
  rw [hm]
  simp only [Option.map_some', Option.some.injEq]
  decide

/-- **C3** — the channels' data slices tile the trailing data region
contiguously, in insertion order, starting at `channelsDataPointer`: the
running offset advances by `elementWidth * sampleCount` per written
channel (a zero-sample channel contributes no bytes and leaves it
unchanged), distinct slices never overlap, the total number of bytes
written past `channelsDataPointer` is the sum of the per-channel byte
counts, and each channel's slice starts at the (32-bit) data pointer
recorded in its metadata record, whose data length field is its sample
count. -/
theorem c3_data_region (f : File) :
    contiguousFrom (channelsDataPointer f.channels.length)
        (dataExtents (fileChanResults f)) (fileFinalDataPointer f) ∧
      fileFinalDataPointer f = channelsDataPointer f.channels.length +
        sumBytes (dataExtents (fileChanResults f)) ∧
      (dataExtents (fileChanResults f)).Pairwise
        (fun a b => a.1 + a.2 ≤ b.1) ∧
      (∀ (j : Nat) (t : ElemType) (c : Channel),
        f.channels[j]? = some (ChannelEntry.chan t c) →
          ((fileChanResults f)[j]?.bind resultDataExtent).map Prod.snd =
              some ((elemDataType t).dataTypeLength * c.data.length) ∧
            ((fileChanResults f)[j]?.bind resultMeta).map
                LdFileChannelMeta.dataLength = some (u32 c.data.length) ∧
            ((fileChanResults f)[j]?.bind resultMeta).map
                LdFileChannelMeta.dataPointer =
              ((fileChanResults f)[j]?.bind resultDataExtent).map
                (fun x => u32 x.1) ∧
            (c.data = [] →
              ((fileChanResults f)[j]?.bind resultDataExtent).map Prod.snd =
                some 0)) := by
  have hcont := writeChannels_contiguous f.channels 0 (u32 f.channels.length)
    channelsMetaPointer (channelsDataPointer f.channels.length)
  refine ⟨hcont, contiguousFrom_sum _ _ _ hcont,
    (contiguousFrom_bounds _ _ _ hcont).2, ?_⟩
  intro j t c hj
  obtain ⟨d, hd⟩ := writeChannels_get_chan f.channels 0 (u32 f.channels.length)
    channelsMetaPointer (channelsDataPointer f.channels.length) j t c hj
  simp only [fileChanResults]
  rw [hd]
  refine ⟨by simp [resultDataExtent, channelWrite], ?_, ?_, fun hnil => ?_⟩
  · simp [resultMeta, channelWrite]
  · simp [resultMeta, resultDataExtent, channelWrite]
  · simp [resultDataExtent, channelWrite, hnil]

/-- Witness for C3 on a two-channel file: the first channel (float32,
three samples) occupies 12 bytes, and the final data offset is the start
of the data region plus the summed slice sizes. -/
theorem c3_data_region_witness :
    ((fileChanResults fEx2)[0]?.bind resultDataExtent).map Prod.snd =
        some 12 ∧
      fileFinalDataPointer fEx2 = channelsDataPointer fEx2.channels.length +
        sumBytes (dataExtents (fileChanResults fEx2)) := by
  constructor
  · have h := ((c3_data_region fEx2).2.2.2 0 ElemType.float32 cEx3
      (by decide)).1
    simpa [elemDataType, DataTypeFloat32, cEx3] using h
  · exact (c3_data_region fEx2).2.1

theorem chanWriteOps_mem (entries : List ChannelEntry) :
    ∀ (i cc mp cur : Nat) (w : PlacedWrite),
      w ∈ chanWriteOps (writeChannels entries i cc mp cur).1 →
        (∃ j t c, entries[j]? = some (ChannelEntry.chan t c) ∧
          w = ⟨mp + channelMetaSize * u16 (i + j), channelMetaSize⟩) ∨
        cur ≤ w.offset := by
  induction entries with
  | nil => intro i cc mp cur w hw; simp [writeChannels, chanWriteOps] at hw
  | cons e rest ih =>
    intro i cc mp cur w hw
    cases e with
    | chan t c =>
      rw [show (writeChannels (ChannelEntry.chan t c :: rest) i cc mp cur).1 =
          ChanResult.written (channelWrite t c (u16 i) cc mp cur).metaPos
            (channelWrite t c (u16 i) cc mp cur).meta cur
            (channelWrite t c (u16 i) cc mp cur).dataBytes ::
            (writeChannels rest (i + 1) cc mp
              (channelWrite t c (u16 i) cc mp cur).nextDataPointer).1
          from by simp [writeChannels]] at hw
      simp only [chanWriteOps] at hw
      rcases List.mem_cons.mp hw with rfl | hw
      · exact Or.inl ⟨0, t, c, by simp, rfl⟩
      · rcases List.mem_cons.mp hw with rfl | hw
        · exact Or.inr (Nat.le_refl _)
        · rcases ih (i + 1) cc mp
            (channelWrite t c (u16 i) cc mp cur).nextDataPointer w hw with
            ⟨j, t2, c2, hj, hw2⟩ | hcur
          · refine Or.inl ⟨j + 1, t2, c2, by simpa using hj, ?_⟩
            rw [hw2]
            have hij : i + 1 + j = i + (j + 1) := by omega
            rw [hij]
          · exact Or.inr (le_trans (Nat.le_add_right cur _) hcur)
    | other =>
      rw [show (writeChannels (ChannelEntry.other :: rest) i cc mp cur).1 =
          ChanResult.skipped :: (writeChannels rest (i + 1) cc mp cur).1
          from by simp [writeChannels]] at hw
      simp only [chanWriteOps] at hw
      rcases ih (i + 1) cc mp cur w hw with ⟨j, t2, c2, hj, hw2⟩ | hcur
      · refine Or.inl ⟨j + 1, t2, c2, by simpa using hj, ?_⟩
        rw [hw2]
        have hij : i + 1 + j = i + (j + 1) := by omega
        rw [hij]
      · exact Or.inr hcur

/-- **C9** (amended) — `AddChannels` appends values of any type without
validation; during `File.Write` an entry that is not a supported channel
pointer is silently skipped by the type switch — the loop writes neither a
metadata record nor data bytes for it — yet it is still counted in the
header's channel count and still reserves a `channelMetaSize` slot in the
offset computation; and for entry counts within the `uint16`-indexable
range (at most 65536) no write of the whole serialization touches that
slot's bytes.  Beyond that range the reserved slot can be overwritten by a
later channel's metadata record (see the counterexample). -/
theorem c9_skip_invalid (f : File) (i : Nat)
    (hi : f.channels[i]? = some ChannelEntry.other)
    (hk : f.channels.length ≤ 65536) :
    (mkHead f).channelsCount = f.channels.length ∧
      channelsDataPointer f.channels.length =
        channelsMetaPointer + channelMetaSize * f.channels.length ∧
      channelsMetaPointer + channelMetaSize * (i + 1) ≤
        channelsDataPointer f.channels.length ∧
      (fileChanResults f)[i]? = some ChanResult.skipped ∧
      (∀ w ∈ fileWrites f,
        w.offset + w.size ≤ channelsMetaPointer + channelMetaSize * i ∨
          channelsMetaPointer + channelMetaSize * (i + 1) ≤ w.offset) ∧
      (∀ (g : File) (cs : List ChannelEntry),
        (addChannels g cs).channels = g.channels ++ cs) := by
  have hmp : channelsMetaPointer = 4276 := by decide
  have hms : channelMetaSize = 124 := by decide
  have hilen : i < f.channels.length := by
    by_contra hco
    rw [List.getElem?_eq_none_iff.mpr (by omega)] at hi
    exact Option.noConfusion hi
  have hcd : channelsDataPointer f.channels.length =
      channelsMetaPointer + channelMetaSize * f.channels.length := rfl
  refine ⟨?_, rfl, ?_, ?_, ?_, fun g cs => rfl⟩
  · show u32 f.channels.length = f.channels.length
    exact Nat.mod_eq_of_lt (by omega)
  · have h1 : i + 1 ≤ f.channels.length := by omega
    calc channelsMetaPointer + channelMetaSize * (i + 1) ≤
        channelsMetaPointer + channelMetaSize * f.channels.length :=
          Nat.add_le_add_left (Nat.mul_le_mul_left _ h1) _
      _ = channelsDataPointer f.channels.length := hcd.symm
  · exact writeChannels_get_other f.channels 0 (u32 f.channels.length)
      channelsMetaPointer (channelsDataPointer f.channels.length) i hi
  · intro w hw
    have hh : headerSize = 1762 := by decide
    have hep : eventPointer = 1762 := by decide
    have hes : eventSize = 1154 := by decide
    have hvp : venuePointer = 2916 := by decide
    have hvs : venueSize = 1100 := by decide
    have hvhp : vehiclePointer = 4016 := by decide
    have hvhs : vehicleSize = 260 := by decide
    rw [fileWrites] at hw
    rcases List.mem_cons.mp hw with rfl | hw
    · refine Or.inl ?_
      show 0 + headerSize ≤ channelsMetaPointer + channelMetaSize * i
      omega
    rcases List.mem_cons.mp hw with rfl | hw
    · refine Or.inl ?_
      show eventPointer + eventSize ≤ channelsMetaPointer + channelMetaSize * i
      omega
    rcases List.mem_cons.mp hw with rfl | hw
    · refine Or.inl ?_
      show venuePointer + venueSize ≤ channelsMetaPointer + channelMetaSize * i
      omega
    rcases List.mem_cons.mp hw with rfl | hw
    · refine Or.inl ?_
      show vehiclePointer + vehicleSize ≤
        channelsMetaPointer + channelMetaSize * i
      omega
    rcases chanWriteOps_mem f.channels 0 (u32 f.channels.length)
        channelsMetaPointer (channelsDataPointer f.channels.length) w hw with
      ⟨j, t2, c2, hj, rfl⟩ | hcur
    · have hjlen : j < f.channels.length := by
        by_contra hco
        rw [List.getElem?_eq_none_iff.mpr (by omega)] at hj
        exact Option.noConfusion hj
      have hne : j ≠ i := by
        intro hji
        rw [hji, hi] at hj
        simp at hj
      have hu : u16 (0 + j) = j := by
        show (0 + j) % 65536 = j
        omega
      show channelsMetaPointer + channelMetaSize * u16 (0 + j) +
          channelMetaSize ≤ channelsMetaPointer + channelMetaSize * i ∨
        channelsMetaPointer + channelMetaSize * (i + 1) ≤
          channelsMetaPointer + channelMetaSize * u16 (0 + j)
      rw [hu, hmp, hms]
      rcases Nat.lt_or_ge j i with hji | hji
      · exact Or.inl (by omega)
      · exact Or.inr (by omega)
    · refine Or.inr (le_trans ?_ hcur)
      rw [hcd]
      have h1 : i + 1 ≤ f.channels.length := by omega
      exact Nat.add_le_add_left (Nat.mul_le_mul_left _ h1) _

theorem mem_chanWriteOps_of_get (entries : List ChannelEntry) :
    ∀ (i cc mp cur j : Nat) (t : ElemType) (c : Channel),
      entries[j]? = some (ChannelEntry.chan t c) →
      (⟨mp + channelMetaSize * u16 (i + j), channelMetaSize⟩ : PlacedWrite) ∈
        chanWriteOps (writeChannels entries i cc mp cur).1 := by
  induction entries with
  | nil => intro i cc mp cur j t c h; simp at h
  | cons e rest ih =>
    intro i cc mp cur j t c h
    cases j with
    | zero =>
      simp at h
      subst h
      rw [show (writeChannels (ChannelEntry.chan t c :: rest) i cc mp cur).1 =
          ChanResult.written (channelWrite t c (u16 i) cc mp cur).metaPos
            (channelWrite t c (u16 i) cc mp cur).meta cur
            (channelWrite t c (u16 i) cc mp cur).dataBytes ::
            (writeChannels rest (i + 1) cc mp
              (channelWrite t c (u16 i) cc mp cur).nextDataPointer).1
          from by simp [writeChannels]]
      simp only [chanWriteOps]
      exact List.mem_cons_self _ _
    | succ j =>
      simp at h
      have hij : i + 1 + j = i + (j + 1) := by omega
      cases e with
      | chan tp cp =>
        have hm := ih (i + 1) cc mp
          (channelWrite tp cp (u16 i) cc mp cur).nextDataPointer j t c h
        rw [hij] at hm
        rw [show (writeChannels (ChannelEntry.chan tp cp :: rest)
              i cc mp cur).1 =
            ChanResult.written (channelWrite tp cp (u16 i) cc mp cur).metaPos
              (channelWrite tp cp (u16 i) cc mp cur).meta cur
              (channelWrite tp cp (u16 i) cc mp cur).dataBytes ::
              (writeChannels rest (i + 1) cc mp
                (channelWrite tp cp (u16 i) cc mp cur).nextDataPointer).1
            from by simp [writeChannels]]
        simp only [chanWriteOps]
        exact List.mem_cons_of_mem _ (List.mem_cons_of_mem _ hm)
      | other =>
        have hm := ih (i + 1) cc mp cur j t c h
        rw [hij] at hm
        rw [show (writeChannels (ChannelEntry.other :: rest) i cc mp cur).1 =
            ChanResult.skipped :: (writeChannels rest (i + 1) cc mp cur).1
            from by simp [writeChannels]]
        simp only [chanWriteOps]
        exact hm

/-- Counterexample to C9 as stated: a file with 65537 entries whose entry
0 is an unsupported value and whose remaining 65536 entries are valid
channels.  Entry 0 is skipped and reserves metadata slot 0, the 124-byte
interval at `channelsMetaPointer + channelMetaSize * 0`; but the loop
passes `uint16(65536) = 0` as the index of the last channel (file.go:219),
so that channel's metadata record is written exactly into the reserved
slot — the slot's bytes are not left unwritten, contradicting the claim:
the listed write starts inside the slot interval instead of ending before
it or starting after it. -/
theorem c9_counterexample :
    fC9.channels.length = 65537 ∧
      fC9.channels[0]? = some ChannelEntry.other ∧
      fC9.channels[65536]? =
        some (ChannelEntry.chan ElemType.float32 cEx) ∧
      (⟨channelsMetaPointer + channelMetaSize * 0, channelMetaSize⟩ :
          PlacedWrite) ∈ fileWrites fC9 ∧
      ¬(channelsMetaPointer + channelMetaSize * 0 + channelMetaSize ≤
          channelsMetaPointer + channelMetaSize * 0 ∨
        channelsMetaPointer + channelMetaSize * (0 + 1) ≤
          channelsMetaPointer + channelMetaSize * 0) := by
  have hget : fC9.channels[65536]? =
      some (ChannelEntry.chan ElemType.float32 cEx) := by
    show (ChannelEntry.other :: List.replicate 65536
        (ChannelEntry.chan ElemType.float32 cEx))[65536]? = _
    rw [show (65536 : Nat) = 65535 + 1 by norm_num]
    rw [List.getElem?_cons_succ, List.getElem?_replicate]
    norm_num
  refine ⟨?_, ?_, hget, ?_, by decide⟩
  · show (ChannelEntry.other :: List.replicate 65536
        (ChannelEntry.chan ElemType.float32 cEx)).length = 65537
    rw [List.length_cons, List.length_replicate]
  · show (ChannelEntry.other :: List.replicate 65536
        (ChannelEntry.chan ElemType.float32 cEx))[0]? = _
    rw [List.getElem?_cons_zero]
  · have hmem := mem_chanWriteOps_of_get fC9.channels 0
      (u32 fC9.channels.length) channelsMetaPointer
      (channelsDataPointer fC9.channels.length) 65536 ElemType.float32 cEx
      hget
    rw [show channelsMetaPointer + channelMetaSize * u16 (0 + 65536) =
        channelsMetaPointer + channelMetaSize * 0 from by decide] at hmem
    rw [fileWrites]
    exact List.mem_cons_of_mem _ (List.mem_cons_of_mem _
      (List.mem_cons_of_mem _ (List.mem_cons_of_mem _ hmem)))

/-- Witness for C9 on a file whose second entry is an unsupported value:
it is counted in the channel count and its loop iteration writes
nothing. -/
theorem c9_skip_invalid_witness :
    (mkHead fEx9).channelsCount = fEx9.channels.length ∧
      (fileChanResults fEx9)[1]? = some ChanResult.skipped :=
  ⟨(c9_skip_invalid fEx9 1 (by decide) (by decide)).1,
    (c9_skip_invalid fEx9 1 (by decide) (by decide)).2.2.2.1⟩

end MotecLd
